import Mathlib

/-!
Verification development for the ProjectManagementApp frontend.

The definitions below are shallow embeddings of the TypeScript source:
the dependency-graph editor (PERTChart: `hasCycle`, `onConnect`,
`handleCreateTask`), the WBS view (`getTaskCategory`,
`getDescriptionWithoutCategory`, `getTaskPosition`), the project pages
(`handleAddMember`, `handleCreateProject`, `handleEditProject`,
the schedule dirty flag), the declared result types
(`ScheduleCalculationResult`, `Task`), and — modelled from the spec,
since the backend engine is not part of the frontend sources — the
forward scheduler of §4.3.

Task identifiers are numeric in the source (stringified for ReactFlow
node ids; the stringification is injective on numbers, so ids are kept
as naturals here).  JS `number` values carrying allocation ratios and
efforts are embedded as rationals, date values as integers
(millisecond timestamps, or day numbers where noted).
-/

namespace PM

/-- The four dependency relation kinds of `TaskDependency.dependency_type`. -/
inductive DepType
  | FS | SS | FF | SF
deriving DecidableEq, Repr

/-- Embedding of the `TaskDependency` interface (types/index.ts):
an ordered pair (successor `task_id`, predecessor `depends_on_id`)
with a relation kind. -/
structure TaskDependency where
  task_id : Nat
  depends_on_id : Nat
  dependency_type : DepType
deriving DecidableEq, Repr

/-- Embedding of the `WBSTask` fields used by the graph editor:
the task identity and its list of incoming dependency records. -/
structure WBSTask where
  task_id : Nat
  dependencies : List TaskDependency
deriving DecidableEq, Repr

/-- One pass of the `while (stack.length > 0)` loop of `hasCycle`
(PERTChart `onConnect`): pop the top of the stack, skip it if already
visited, report success if it is the source id, otherwise push the
`depends_on_id` of every dependency of the popped task.  The JS loop
always terminates because `visited` grows; here the same computation is
driven by fuel, with `hasCycleFuel` supplying enough fuel for the loop
to run to completion. -/
def hasCycleLoop (tasks : List WBSTask) (sourceId : Nat) :
    Nat → List Nat → List Nat → Bool
  | 0, _, _ => false
  | _ + 1, _, [] => false
  | fuel + 1, visited, current :: rest =>
    if current ∈ visited then
      hasCycleLoop tasks sourceId fuel visited rest
    else
      if current = sourceId then true
      else
        match tasks.find? (fun t => t.task_id = current) with
        | some t =>
          hasCycleLoop tasks sourceId fuel (current :: visited)
            (t.dependencies.foldl (fun st d => d.depends_on_id :: st) rest)
        | none => hasCycleLoop tasks sourceId fuel (current :: visited) rest

/-- Fuel bound for `hasCycleLoop`: the loop pops at most one entry per
iteration and pushes each task's dependency list at most once (a task
is expanded only on its first visit), so the number of iterations is at
most one (the initial stack entry) plus the total number of dependency
records, plus one spare per task for revisit pops. -/
def hasCycleFuel (tasks : List WBSTask) : Nat :=
  2 + tasks.length + tasks.foldl (fun n t => n + t.dependencies.length) 0
    + tasks.length * tasks.foldl (fun n t => n + t.dependencies.length) 0

/-- Embedding of `hasCycle(sourceId, targetId)` from PERTChart
`onConnect`: a depth-first walk that starts from the target node and
follows `depends_on_id` links, returning true iff the source id is
encountered. -/
def hasCycle (tasks : List WBSTask) (sourceId targetId : Nat) : Bool :=
  hasCycleLoop tasks sourceId (hasCycleFuel tasks) [] [targetId]

/-- Outcome of one `onConnect` attempt in the graph editor. -/
inductive ConnectOutcome
  | missingEndpoint
  | selfLoop
  | duplicate
  | cycleBlocked
  | created (dep : TaskDependency)
deriving DecidableEq, Repr

/-- Embedding of PERTChart `onConnect`: guard clauses in source order —
missing endpoint, self-loop (`params.source === params.target`),
duplicate edge (the target task already has a dependency record whose
`depends_on_id` is the source), the `hasCycle` pre-check — and
otherwise the dependency `{task_id: target, depends_on_id: source}` is
created with the currently selected relation kind. -/
def onConnect (tasks : List WBSTask) (dependencyType : DepType)
    (source target : Option Nat) : ConnectOutcome :=
  match source, target with
  | some s, some t =>
    if s = t then ConnectOutcome.selfLoop
    else
      match tasks.find? (fun tk => tk.task_id = t) with
      | some tk =>
        if (tk.dependencies.find? (fun d => d.depends_on_id = s)).isSome then
          ConnectOutcome.duplicate
        else if hasCycle tasks s t then ConnectOutcome.cycleBlocked
        else ConnectOutcome.created ⟨t, s, dependencyType⟩
      | none =>
        if hasCycle tasks s t then ConnectOutcome.cycleBlocked
        else ConnectOutcome.created ⟨t, s, dependencyType⟩
  | _, _ => ConnectOutcome.missingEndpoint

/-- Effect of a successful connection on the task snapshot: the backend
stores the record `{task_id: t, depends_on_id: s}` and the reloaded
target task carries it in its dependency list. -/
def addDependency (tasks : List WBSTask) (t s : Nat) (k : DepType) :
    List WBSTask :=
  tasks.map fun tk =>
    if tk.task_id = t then
      { tk with dependencies := tk.dependencies ++ [⟨t, s, k⟩] }
    else tk

/-- Direct depends-on successors of a task id: the `depends_on_id`
fields of its dependency records (task x depends on each of these). -/
def depSuccessors (tasks : List WBSTask) (id : Nat) : List Nat :=
  match tasks.find? (fun t => t.task_id = id) with
  | some t => t.dependencies.map (fun d => d.depends_on_id)
  | none => []

/-- Fuel-bounded reachability along depends-on links: `true` iff `b` is
reachable from `a` by one or more `depends_on` steps of length at most
`fuel`. -/
def reachableWithin (tasks : List WBSTask) : Nat → Nat → Nat → Bool
  | 0, _, _ => false
  | fuel + 1, a, b =>
    (depSuccessors tasks a).any fun c => c = b || reachableWithin tasks fuel c b

/-- Whether drawing the edge source `s` → target `t` (that is, making
task `t` depend on task `s`) introduces a dependency cycle: after the
record is added, `t` can reach itself by a non-empty depends-on path
(any cycle through the new record passes through `t`).  Paths in a
snapshot of `n` tasks need at most `n` steps. -/
def introducesCycle (tasks : List WBSTask) (s t : Nat) : Bool :=
  reachableWithin (addDependency tasks t s DepType.FS)
    (tasks.length + 1) t t

/-- TypeScript field types as they appear in types/index.ts: `number`,
`string`, `boolean`, arrays, references to other declared interfaces,
and the optional marker `?`. -/
inductive TsTy
  | num
  | str
  | bool
  | arr (t : TsTy)
  | ref (name : String)
  | opt (t : TsTy)
deriving DecidableEq, Repr

/-- The field list of the `Task` interface (types/index.ts lines
41-58), in declaration order, with each field's declared type. -/
def Task.fields : List (String × TsTy) :=
  [("task_id", TsTy.num),
   ("project_id", TsTy.num),
   ("phase_id", TsTy.opt TsTy.num),
   ("task_name", TsTy.str),
   ("description", TsTy.opt TsTy.str),
   ("estimated_duration", TsTy.opt TsTy.num),
   ("start_date", TsTy.opt TsTy.str),
   ("end_date", TsTy.opt TsTy.str),
   ("earliest_start", TsTy.opt TsTy.str),
   ("deadline", TsTy.opt TsTy.str),
   ("status_code", TsTy.opt TsTy.str),
   ("milestone_flag", TsTy.opt TsTy.bool),
   ("x_position", TsTy.opt TsTy.num),
   ("y_position", TsTy.opt TsTy.num),
   ("assignee", TsTy.opt (TsTy.ref "Employee")),
   ("phase", TsTy.opt (TsTy.ref "ProjectPhase"))]

/-- The field list of the `ScheduleCalculationResult` interface
(types/index.ts lines 80-84): the per-task results travel as `Task`
values, the critical path as a flat array of task ids, and the total
duration as a number. -/
def ScheduleCalculationResult.fields : List (String × TsTy) :=
  [("tasks", TsTy.arr (TsTy.ref "Task")),
   ("critical_path", TsTy.arr TsTy.num),
   ("total_duration", TsTy.num)]

/-- Whether a declared type is boolean-valued (a plain or optional
`boolean`), i.e. can carry a per-task flag. -/
def TsTy.isBoolValued : TsTy → Bool
  | TsTy.bool => true
  | TsTy.opt t => t.isBoolValued
  | _ => false

/-- Modelled from the spec: "One or more critical-path sequences of
task identities" — the result's critical-path component would have to
hold a collection of sequences of task ids, i.e. an array of arrays of
numbers. -/
def specCriticalPathTy : TsTy :=
  TsTy.arr (TsTy.arr TsTy.num)

/-- First value bound to a key in an association list (the semantics of
reading a field off the declared field list). -/
def lookupField (fields : List (String × TsTy)) (k : String) : Option TsTy :=
  match fields with
  | [] => none
  | (k', v) :: rest => if k' = k then some v else lookupField rest k

end PM

namespace PM

/-- JavaScript whitespace class `\s` membership, by code point:
tab, line feed, vertical tab, form feed, carriage return, space,
no-break space, ogham space mark, the general punctuation spaces,
line separator, paragraph separator, narrow no-break space, medium
mathematical space, ideographic space, and the byte-order mark. -/
def isJsWhitespace (c : Char) : Bool :=
  c.toNat = 9 || c.toNat = 10 || c.toNat = 11 || c.toNat = 12 ||
  c.toNat = 13 || c.toNat = 32 || c.toNat = 160 || c.toNat = 5760 ||
  (8192 ≤ c.toNat && c.toNat ≤ 8202) || c.toNat = 8232 ||
  c.toNat = 8233 || c.toNat = 8239 || c.toNat = 8287 ||
  c.toNat = 12288 || c.toNat = 65279

/-- JavaScript line terminators, which the dot of a regex without the
`s` flag does not match: line feed, carriage return, line separator,
paragraph separator. -/
def isLineTerminator (c : Char) : Bool :=
  c.toNat = 10 || c.toNat = 13 || c.toNat = 8232 || c.toNat = 8233

/-- The guard shared by the category helpers:
`description && description.startsWith('[') && description.includes(']')`
(a JS string is truthy iff non-empty). -/
def categoryGuard (s : List Char) : Bool :=
  match s with
  | '[' :: rest => rest.contains ']'
  | _ => false

/-- The capture of `/^\[([^\]]+)\]/`: the characters between the
leading bracket and the first closing bracket, provided there is at
least one and the closing bracket is present. -/
def bracketCapture (s : List Char) : Option (List Char) :=
  match s with
  | '[' :: rest =>
    let c := rest.takeWhile (fun ch => ch ≠ ']')
    if c.isEmpty then none
    else
      match (rest.drop c.length).head? with
      | some ']' => some c
      | _ => none
  | _ => none

/-- Embedding of `getTaskCategory` (WBSView.tsx lines 84-90 and the
identical copy in PERTChart): under the guard, return the regex
capture, else null. -/
def getTaskCategory (description : Option (List Char)) : Option (List Char) :=
  match description with
  | some s =>
    if categoryGuard s then bracketCapture s else none
  | none => none

/-- The two captures of `/^\[([^\]]+)\]\s*(.*)/` on a string already
known to start with `[`: the bracketed prefix, then — after a maximal
run of whitespace — the remaining characters of the first line (the
dot does not cross a line terminator). -/
def categorySplit (s : List Char) : Option (List Char × List Char) :=
  match s with
  | '[' :: rest =>
    let c := rest.takeWhile (fun ch => ch ≠ ']')
    if c.isEmpty then none
    else
      match (rest.drop c.length).head? with
      | some ']' =>
        let after := (rest.drop c.length).drop 1
        let afterWs := after.dropWhile isJsWhitespace
        some (c, afterWs.takeWhile (fun ch => ¬ isLineTerminator ch))
      | _ => none
  | _ => none

/-- Embedding of `getDescriptionWithoutCategory` (WBSView.tsx lines
93-99): under the guard, the second capture of the split regex (or the
description unchanged when the regex fails to match); otherwise the
description unchanged. -/
def getDescriptionWithoutCategory (description : List Char) : List Char :=
  if categoryGuard description then
    match categorySplit description with
    | some (_, d) => d
    | none => description
  else description

/-- Embedding of the description composed by `handleCreateTask`
(PERTChart lines 618-627 and the identical logic in WBSView): when a
category is chosen the stored description is the template
`[category] description`, otherwise the description alone. -/
def composeDescription (category description : List Char) : List Char :=
  if category.isEmpty then description
  else '[' :: (category ++ ']' :: ' ' :: description)

end PM

namespace PM

/-- Membership record as used by the workload computation: the
employee it concerns and its (optional) allocation ratio. -/
structure ProjectMember where
  employee_id : Nat
  allocRatio : Option ℚ
deriving DecidableEq, Repr

/-- Total allocation of one employee over all memberships, exactly as
`employeesWithWorkload` (ProjectDetail.tsx lines 84-99) and
`calculateEmployeeWorkloads` (ProjectList) compute it: filter the
member records by employee, read `allocation_ratio || 0`, and sum. -/
def totalAllocation (allMembers : List ProjectMember) (eid : Nat) : ℚ :=
  ((allMembers.filter (fun m => m.employee_id = eid)).map
    (fun m => m.allocRatio.getD 0)).sum

/-- Remaining capacity of one employee:
`Math.max(0, 1.0 - totalAllocation)`. -/
def remainingCapacity (allMembers : List ProjectMember) (eid : Nat) : ℚ :=
  max 0 (1 - totalAllocation allMembers eid)

/-- Embedding of `employeesWithWorkload`: each employee id of the
employee list paired with its total allocation and remaining
capacity. -/
def employeesWithWorkload (employees : List Nat)
    (allMembers : List ProjectMember) : List (Nat × ℚ × ℚ) :=
  employees.map fun eid =>
    (eid, totalAllocation allMembers eid, remainingCapacity allMembers eid)

/-- Embedding of the guard of `handleAddMember` (ProjectDetail.tsx
lines 190-215): look the requested employee up in
`employeesWithWorkload`; when it is found and the requested ratio
exceeds its remaining capacity the handler returns before any API
call; otherwise the `addMember` call proceeds.  Returns `true` iff the
API call is made. -/
def handleAddMemberProceeds (employees : List Nat)
    (allMembers : List ProjectMember) (reqId : Nat) (ratio : ℚ) : Bool :=
  match (employeesWithWorkload employees allMembers).find?
      (fun e => e.1 = reqId) with
  | some e => !(decide (e.2.2 < ratio))
  | none => true

/-- Project form data relevant to the create/edit validation: the
(optional) name, and the start and end dates.  A date field holds
`none` for an unsupplied (undefined or empty-string, both falsy) value
and otherwise the parsed `Date` timestamp. -/
structure ProjectForm where
  project_name : Option (List Char)
  start_date : Option Int
  end_date : Option Int
deriving DecidableEq, Repr

/-- The validation guards shared by `handleCreateProject`
(ProjectList, part of the unnamed sources, lines 151-198) and
`handleEditProject` (ProjectDetail.tsx lines 147-188), in source
order: a missing name or one whose `trim()` is empty (every character
whitespace) rejects, missing start date rejects, missing end date
rejects, and `startDate >= endDate` rejects. -/
def projectFormValid (p : ProjectForm) : Bool :=
  match p.project_name with
  | none => false
  | some nm =>
    if nm.all isJsWhitespace then false
    else
      match p.start_date with
      | none => false
      | some s =>
        match p.end_date with
        | none => false
        | some e => decide (s < e)

/-- Embedding of `handleEditProject`: the API call is made exactly when
the form passes the shared validation. -/
def handleEditProjectProceeds (p : ProjectForm) : Bool :=
  projectFormValid p

/-- Embedding of `handleCreateProject`: after the shared validation,
the per-member workload loop can still reject (a selected member whose
requested allocation exceeds its remaining capacity); only then is the
`projectAPI.create` call made. -/
def handleCreateProjectProceeds (p : ProjectForm) (employees : List Nat)
    (allMembers : List ProjectMember)
    (selectedMembers : List (Nat × ℚ)) : Bool :=
  if projectFormValid p then
    !(selectedMembers.any fun sel =>
      match (employeesWithWorkload employees allMembers).find?
          (fun e => e.1 = sel.1) with
      | some e => decide (e.2.2 < sel.2)
      | none => false)
  else false

end PM

namespace PM

/-- Milliseconds per calendar day, the divisor of `getTaskPosition`. -/
def msPerDay : Int := 86400000

/-- Model of `Date.prototype.toDateString` equality: two timestamps
render the same date string iff they fall on the same calendar day,
i.e. have the same floor-quotient by `msPerDay` (a fixed UTC-like
timezone is assumed). -/
def sameCalendarDay (a b : Int) : Bool :=
  Int.fdiv a msPerDay = Int.fdiv b msPerDay

/-- Task date fields consumed by `getTaskPosition`: the optional
computed start and end timestamps. -/
structure GanttTask where
  start_date : Option Int
  end_date : Option Int
deriving DecidableEq, Repr

/-- Inclusive calendar-day span of `getTaskPosition`:
`Math.ceil((taskEnd - taskStart) / 86400000) + 1`. -/
def durationDays (s e : Int) : Int :=
  ⌈((e - s : Int) : ℚ) / ((msPerDay : Int) : ℚ)⌉ + 1

/-- Embedding of `getTaskPosition` (WBSView.tsx lines 248-266): null
when either date is missing; otherwise find the index of the rendered
date whose calendar day matches the task start (null when there is
none) and return `left = index * 30`,
`width = Math.max(durationDays * 30, 25)`. -/
def getTaskPosition (dateRange : List Int) (task : GanttTask) :
    Option (Int × Int) :=
  match task.start_date, task.end_date with
  | some s, some e =>
    match dateRange.findIdx? (fun d => sameCalendarDay d s) with
    | none => none
    | some i => some ((i : Int) * 30, max (durationDays s e * 30) 25)
  | _, _ => none

end PM

namespace PM

/-- The mutations and recalculation events of the project screen that
touch the `scheduleNeedsRecalculation` flag.  Each constructor stands
for one handler in the sources: task creation (ProjectDetail
`handleCreateTask`, WBSView and PERTChart creation forms), task field
and status updates (WBSView `handleStatusUpdate`, the task edit
panels), dependency creation and deletion (PERTChart `onConnect`,
`onEdgeClick`), member addition, removal and update (ProjectDetail
`handleAddMember`, `handleRemoveMember`, `onUpdateMember` — the update
records whether the `allocation_ratio` field was part of the update),
project edits (ProjectDetail `handleEditProject` — recording whether
the project window dates changed), and the success or failure of
`handleCalculateSchedule`. -/
inductive ScreenEvent
  | taskCreate
  | taskUpdate
  | taskStatusUpdate
  | depCreate
  | depDelete
  | memberAdd
  | memberRemove
  | memberUpdate (allocationChanged : Bool)
  | projectEdit (datesChanged : Bool)
  | recalcSuccess
  | recalcFailure
deriving DecidableEq, Repr

/-- Whether an event is a task, dependency, or membership mutation (as
opposed to a project edit or a recalculation event). -/
def ScreenEvent.isDataMutation : ScreenEvent → Bool
  | ScreenEvent.taskCreate => true
  | ScreenEvent.taskUpdate => true
  | ScreenEvent.taskStatusUpdate => true
  | ScreenEvent.depCreate => true
  | ScreenEvent.depDelete => true
  | ScreenEvent.memberAdd => true
  | ScreenEvent.memberRemove => true
  | ScreenEvent.memberUpdate _ => true
  | _ => false

/-- Transition of the `scheduleNeedsRecalculation` flag, read off the
handlers of ProjectDetail.tsx and the editors: every task and
dependency handler calls `handleScheduleChange()` (flag := true);
`handleAddMember` and `handleRemoveMember` never do; `onUpdateMember`
calls it only when `updates.allocation_ratio !== undefined`;
`handleEditProject` calls it only when a window date changed;
`handleCalculateSchedule` sets the flag to false after a successful
`calculateSchedule` call and leaves it untouched in the catch
branch. -/
def flagStep (flag : Bool) : ScreenEvent → Bool
  | ScreenEvent.taskCreate => true
  | ScreenEvent.taskUpdate => true
  | ScreenEvent.taskStatusUpdate => true
  | ScreenEvent.depCreate => true
  | ScreenEvent.depDelete => true
  | ScreenEvent.memberAdd => flag
  | ScreenEvent.memberRemove => flag
  | ScreenEvent.memberUpdate ac => if ac then true else flag
  | ScreenEvent.projectEdit dc => if dc then true else flag
  | ScreenEvent.recalcSuccess => false
  | ScreenEvent.recalcFailure => flag

end PM

namespace PM

/-- Modelled from the spec: the backend schedule engine is not among
the frontend sources, so the Calendar of §4.1 is embedded from the
spec's words.  Dates are integer day numbers with day 0 a Monday;
Saturday and Sunday (residues 5 and 6 mod 7) are the only non-working
days. -/
def isWorkingDay (d : Int) : Bool :=
  decide (d.emod 7 < 5)

/-- Modelled from the spec: the smallest working day that is greater
than or equal to the given day (a weekend consumes no working-day
credit). -/
def skipToWorkingDay (d : Int) : Int :=
  if d.emod 7 = 5 then d + 2
  else if d.emod 7 = 6 then d + 1
  else d

/-- Modelled from the spec: the first working day strictly after the
given day — the "+ 1 working day" step of the FS rule. -/
def nextWorkingDay (d : Int) : Int :=
  skipToWorkingDay (d + 1)

/-- Modelled from the spec (§4.1 `workingDaysNeeded`):
`ceil(effort / allocationRatio)`, minimum 1.  The `InvalidAllocation`
failure for a non-positive ratio is raised during validation, before
the scheduler runs, so the arithmetic here is total. -/
def workingDaysNeeded (effort allocationRatio : ℚ) : Nat :=
  (max 1 ⌈effort / allocationRatio⌉).toNat

/-- Step forward a number of working days, one strict working-day step
at a time. -/
def advanceSteps (d : Int) : Nat → Int
  | 0 => d
  | n + 1 => nextWorkingDay (advanceSteps d n)

/-- Modelled from the spec (§4.1 `advance`): the date reached by
stepping forward `workingDays - 1` working days, so that a 1-day task
starting on a date also ends on that date. -/
def advance (d : Int) (workingDays : Nat) : Int :=
  advanceSteps d (workingDays - 1)

/-- Modelled from the spec (§6): a task as the engine consumes it —
identity, effort in person-days, optional earliest-allowed-start,
resolved allocation ratio (`none` when unassigned), milestone flag. -/
structure STask where
  id : Nat
  effort : ℚ
  earliestStart : Option Int
  allocation : Option ℚ
  milestone : Bool
deriving DecidableEq, Repr

/-- A dependency edge as the engine consumes it: ordered
(predecessor, successor) pair with a relation kind. -/
structure SDep where
  pred : Nat
  succ : Nat
  kind : DepType
deriving DecidableEq, Repr

/-- Modelled from the spec: unassigned tasks are scheduled with a
default allocation ratio of 1.0. -/
def STask.effRatio (t : STask) : ℚ :=
  t.allocation.getD 1

/-- Modelled from the spec (§6): milestones are zero-duration tasks,
their effort treated as 0. -/
def STask.effEffort (t : STask) : ℚ :=
  if t.milestone then 0 else t.effort

/-- Elapsed working days a task occupies. -/
def STask.wdays (t : STask) : Nat :=
  workingDaysNeeded t.effEffort t.effRatio

/-- Modelled from the spec (§4.3): the lower bound one incoming edge
imposes on the successor's start, given the predecessor's scheduled
start and end and the successor's working-day count:
FS — first working day after the predecessor's end;
SS — the predecessor's start;
FF — `predecessor.end - workingDaysNeeded(successor) + 1`;
SF — the analogous translation of `successor.end >= predecessor.start`. -/
def depBound (k : DepType) (predStart predEnd : Int) (succDays : Nat) : Int :=
  match k with
  | DepType.FS => nextWorkingDay predEnd
  | DepType.SS => predStart
  | DepType.FF => predEnd - (succDays : Int) + 1
  | DepType.SF => predStart - (succDays : Int) + 1

/-- A scheduled entry: task id with computed start and end days. -/
abbrev ScheduleEntry := Nat × Int × Int

/-- First entry for a task id in a schedule accumulator. -/
def lookupSched : List ScheduleEntry → Nat → Option (Int × Int)
  | [], _ => none
  | (i, s, e) :: rest, k => if i = k then some (s, e) else lookupSched rest k

/-- Modelled from the spec (§4.3): a task's final start is the maximum
of the dependency-imposed lower bounds (taken over incoming edges
whose predecessor is already scheduled), its own
earliest-allowed-start, and the schedule epoch. -/
def taskStart (epoch : Int) (deps : List SDep) (acc : List ScheduleEntry)
    (t : STask) : Int :=
  let bounds := (deps.filter (fun d => d.succ = t.id)).filterMap fun d =>
    (lookupSched acc d.pred).map fun pe => depBound d.kind pe.1 pe.2 t.wdays
  bounds.foldl max (max epoch (t.earliestStart.getD epoch))

/-- Schedule one task against the already-scheduled prefix: compute its
start, derive its end with the Calendar, append the entry. -/
def scheduleStep (epoch : Int) (deps : List SDep) (acc : List ScheduleEntry)
    (t : STask) : List ScheduleEntry :=
  let st := taskStart epoch deps acc t
  acc ++ [(t.id, st, advance st t.wdays)]

/-- Walk a task list (expected in topological order) once, scheduling
every task against the accumulated prefix. -/
def scheduleTasks (epoch : Int) (deps : List SDep) :
    List STask → List ScheduleEntry → List ScheduleEntry
  | [], acc => acc
  | t :: ts, acc => scheduleTasks epoch deps ts (scheduleStep epoch deps acc t)

/-- Modelled from the spec (§4.3): the forward pass over the whole
topologically ordered task list. -/
def runSchedule (epoch : Int) (deps : List SDep) (tasks : List STask) :
    List ScheduleEntry :=
  scheduleTasks epoch deps tasks []

end PM

namespace PM

theorem find?_task_of_nodup {tasks : List WBSTask} {tk : WBSTask} {t : Nat}
    (hids : (tasks.map WBSTask.task_id).Nodup)
    (hmem : tk ∈ tasks) (hid : tk.task_id = t) :
    tasks.find? (fun x => x.task_id = t) = some tk := by
  induction tasks with
  | nil => cases hmem
  | cons hd tl ih =>
    simp only [List.map_cons, List.nodup_cons] at hids
    rcases List.mem_cons.mp hmem with rfl | htl
    · simp [List.find?, hid]
    · have hne : hd.task_id ≠ t := by
        intro h
        exact hids.1 (h ▸ hid ▸ List.mem_map_of_mem WBSTask.task_id htl)
      simp only [List.find?, decide_eq_false hne]
      exact ih hids.2 htl

/-- C1: the claim reads the client-side cycle pre-check as blocking an
edge from source S to target T exactly when the edge would introduce a
dependency cycle.  The code walks the dependency lists starting from
the TARGET and looks for the SOURCE, which checks whether T already
(transitively) depends on S — the condition for the new edge to be a
redundant transitive edge — instead of whether S transitively depends
on T, the actual cycle condition.  On the snapshot with tasks 1, 2, 3
where task 2 depends on task 1 and task 3 depends on task 2: the
connection source 3 → target 1 (make task 1 depend on task 3) passes
the pre-check and is created although it closes the cycle 1 → 2 → 3 →
1, while the connection source 1 → target 3 is blocked as cyclic
although adding it leaves the graph acyclic. -/
theorem C1_cycle_precheck_checks_wrong_direction :
    onConnect
        [⟨1, []⟩, ⟨2, [⟨2, 1, DepType.FS⟩]⟩, ⟨3, [⟨3, 2, DepType.FS⟩]⟩]
        DepType.FS (some 3) (some 1)
      = ConnectOutcome.created ⟨1, 3, DepType.FS⟩ ∧
    introducesCycle
        [⟨1, []⟩, ⟨2, [⟨2, 1, DepType.FS⟩]⟩, ⟨3, [⟨3, 2, DepType.FS⟩]⟩]
        3 1 = true ∧
    onConnect
        [⟨1, []⟩, ⟨2, [⟨2, 1, DepType.FS⟩]⟩, ⟨3, [⟨3, 2, DepType.FS⟩]⟩]
        DepType.FS (some 1) (some 3)
      = ConnectOutcome.cycleBlocked ∧
    introducesCycle
        [⟨1, []⟩, ⟨2, [⟨2, 1, DepType.FS⟩]⟩, ⟨3, [⟨3, 2, DepType.FS⟩]⟩]
        1 3 = false := by
  decide

/-- C3: an attempted connection whose source equals its target, or for
which the target task already has a dependency record on the source,
is answered by the self-loop guard or the duplicate guard — both
precede the dependency-creation call, so the creation callback is
never invoked. -/
theorem C3_self_loop_and_duplicate_rejected
    (tasks : List WBSTask) (dt : DepType) (s t : Nat)
    (hids : (tasks.map WBSTask.task_id).Nodup)
    (h : s = t ∨ ∃ tk ∈ tasks, tk.task_id = t ∧
      ∃ d ∈ tk.dependencies, d.depends_on_id = s) :
    onConnect tasks dt (some s) (some t) = ConnectOutcome.selfLoop ∨
    onConnect tasks dt (some s) (some t) = ConnectOutcome.duplicate := by
  rcases h with rfl | ⟨tk, htk, hid, d, hd, hds⟩
  · left
    simp [onConnect]
  · by_cases hst : s = t
    · left
      simp [onConnect, hst]
    · right
      have hfind := find?_task_of_nodup hids htk hid
      have hdup : (tk.dependencies.find? (fun d => d.depends_on_id = s)).isSome := by
        rw [List.find?_isSome]
        exact ⟨d, hd, by simp [hds]⟩
      simp [onConnect, hst, hfind, hdup]

/-- C3 witness: on a concrete two-task snapshot where task 2 already
depends on task 1, re-drawing the edge 1 → 2 is answered by the
duplicate guard. -/
theorem C3_witness :
    onConnect [⟨1, []⟩, ⟨2, [⟨2, 1, DepType.FS⟩]⟩] DepType.SS
        (some 1) (some 2) = ConnectOutcome.selfLoop ∨
    onConnect [⟨1, []⟩, ⟨2, [⟨2, 1, DepType.FS⟩]⟩] DepType.SS
        (some 1) (some 2) = ConnectOutcome.duplicate :=
  C3_self_loop_and_duplicate_rejected
    [⟨1, []⟩, ⟨2, [⟨2, 1, DepType.FS⟩]⟩] DepType.SS 1 2 (by decide)
    (Or.inr ⟨⟨2, [⟨2, 1, DepType.FS⟩]⟩, by decide, rfl,
      ⟨2, 1, DepType.FS⟩, by decide, rfl⟩)

/-- C4 counterexample: the claim says a successful result carries, for
each task, an over-deadline flag and an unassigned flag.  The per-task
payload of `ScheduleCalculationResult` is the `Task` interface, and
`Task` does not have two distinct boolean-valued fields, so it cannot
carry both flags; its only boolean-valued field is the input attribute
`milestone_flag`. -/
theorem C4_counterexample :
    ¬ ∃ f ∈ Task.fields, ∃ g ∈ Task.fields,
        f ≠ g ∧ f.2.isBoolValued = true ∧ g.2.isBoolValued = true := by
  decide

/-- C4 amended: a successful result carries, for each task, the
computed optional start and end dates together with the deadline and
the optional assignee — the data from which over-deadline and
unassignment can be derived — but no per-task over-deadline or
unassigned flag: the only boolean-valued field of the per-task payload
is the milestone input attribute. -/
theorem C4_amended_no_per_task_flags :
    ("start_date", TsTy.opt TsTy.str) ∈ Task.fields ∧
    ("end_date", TsTy.opt TsTy.str) ∈ Task.fields ∧
    ("deadline", TsTy.opt TsTy.str) ∈ Task.fields ∧
    ("assignee", TsTy.opt (TsTy.ref "Employee")) ∈ Task.fields ∧
    (Task.fields.filter (fun f => f.2.isBoolValued)).map Prod.fst
      = ["milestone_flag"] ∧
    lookupField ScheduleCalculationResult.fields "tasks"
      = some (TsTy.arr (TsTy.ref "Task")) := by
  decide

/-- C5 counterexample: the claim says the result can report one
critical path per terminal task, each its own ordered sequence — a
collection of sequences, of type `number[][]`.  The declared
`critical_path` field holds a single flat `number[]`, and no field of
the result has the collection-of-sequences type. -/
theorem C5_counterexample :
    lookupField ScheduleCalculationResult.fields "critical_path"
      = some (TsTy.arr TsTy.num) ∧
    TsTy.arr TsTy.num ≠ specCriticalPathTy := by
  decide

/-- C5 amended: the result carries exactly one critical-path sequence,
a single flat list of task identities — no field of the result can
hold more than one sequence. -/
theorem C5_amended_single_critical_path :
    lookupField ScheduleCalculationResult.fields "critical_path"
      = some (TsTy.arr TsTy.num) ∧
    (∀ f ∈ ScheduleCalculationResult.fields, f.2 ≠ specCriticalPathTy) ∧
    lookupField ScheduleCalculationResult.fields "total_duration"
      = some TsTy.num := by
  decide

/-- C2 counterexample: the claim says every task, dependency, or
membership mutation sets the needs-recalculation flag.  Adding a
member is a membership mutation, yet `handleAddMember` never calls
`handleScheduleChange`, so after it the flag is still false. -/
theorem C2_counterexample :
    ScreenEvent.memberAdd.isDataMutation = true ∧
    flagStep false ScreenEvent.memberAdd = false := by
  decide

/-- C2 amended: every task and dependency mutation sets the dirty flag;
member addition and removal leave it unchanged; a member update sets
it exactly when the allocation ratio is part of the update; a project
edit sets it exactly when a window date changed; a successful
recalculation clears it and a failed one leaves it unchanged. -/
theorem C2_amended_flag_transitions : ∀ (f ac dc : Bool),
    flagStep f ScreenEvent.taskCreate = true ∧
    flagStep f ScreenEvent.taskUpdate = true ∧
    flagStep f ScreenEvent.taskStatusUpdate = true ∧
    flagStep f ScreenEvent.depCreate = true ∧
    flagStep f ScreenEvent.depDelete = true ∧
    flagStep f ScreenEvent.memberAdd = f ∧
    flagStep f ScreenEvent.memberRemove = f ∧
    flagStep f (ScreenEvent.memberUpdate ac) = (ac || f) ∧
    flagStep f (ScreenEvent.projectEdit dc) = (dc || f) ∧
    flagStep f ScreenEvent.recalcSuccess = false ∧
    flagStep f ScreenEvent.recalcFailure = f := by
  decide

/-- C9: the project create and edit handlers call their API only when
a start date and an end date are both supplied and the start date is
strictly earlier than the end date. -/
theorem C9_project_window_validated (p : ProjectForm) (employees : List Nat)
    (allMembers : List ProjectMember) (selected : List (Nat × ℚ)) :
    (handleCreateProjectProceeds p employees allMembers selected = true →
      ∃ s e, p.start_date = some s ∧ p.end_date = some e ∧ s < e) ∧
    (handleEditProjectProceeds p = true →
      ∃ s e, p.start_date = some s ∧ p.end_date = some e ∧ s < e) := by
  have hvalid : projectFormValid p = true →
      ∃ s e, p.start_date = some s ∧ p.end_date = some e ∧ s < e := by
    intro hv
    unfold projectFormValid at hv
    rcases p with ⟨nm, sd, ed⟩
    rcases nm with _ | nm
    · simp at hv
    · rcases sd with _ | s
      · simp at hv
      · rcases ed with _ | e
        · split at hv <;> simp_all
        · refine ⟨s, e, rfl, rfl, ?_⟩
          split at hv <;> simp_all
  constructor
  · intro hc
    apply hvalid
    unfold handleCreateProjectProceeds at hc
    split at hc
    · assumption
    · exact absurd hc (by simp)
  · exact hvalid

/-- C9 witness: a concrete form with name "P", start day 0 and end day
1 passes both handlers' validation, and both conclusions instantiate. -/
theorem C9_witness :
    ∃ s e, (ProjectForm.mk (some ['P']) (some 0) (some 1)).start_date = some s ∧
      (ProjectForm.mk (some ['P']) (some 0) (some 1)).end_date = some e ∧ s < e :=
  (C9_project_window_validated
    (ProjectForm.mk (some ['P']) (some 0) (some 1)) [] [] []).2 (by decide)

theorem findIdx?_eq_none_of_all {l : List Int} {p : Int → Bool}
    (h : ∀ d ∈ l, p d = false) : l.findIdx? p = none :=
  List.findIdx?_eq_none_iff.mpr h

theorem findIdx?_isSome_of_exists {l : List Int} {p : Int → Bool}
    (h : ∃ d ∈ l, p d = true) : ∃ i, l.findIdx? p = some i := by
  cases hfi : l.findIdx? p with
  | some i => exact ⟨i, rfl⟩
  | none =>
    rcases h with ⟨d, hd, hp⟩
    rw [List.findIdx?_eq_none_iff.mp hfi d hd] at hp
    cases hp

/-- C10: `getTaskPosition` is total via an explicit null — null when a
date is missing or when the start day is not in the rendered range;
otherwise it yields a position whose width is
`max(durationDays * 30, 25)`, hence at least 25 and at least 30 times
the inclusive calendar-day span. -/
theorem C10_getTaskPosition_total (dateRange : List Int) (task : GanttTask) :
    ((task.start_date = none ∨ task.end_date = none) →
      getTaskPosition dateRange task = none) ∧
    (∀ s e, task.start_date = some s → task.end_date = some e →
      ((∀ d ∈ dateRange, sameCalendarDay d s = false) →
        getTaskPosition dateRange task = none) ∧
      ((∃ d ∈ dateRange, sameCalendarDay d s = true) →
        ∃ l w, getTaskPosition dateRange task = some (l, w) ∧
          w = max (durationDays s e * 30) 25 ∧
          25 ≤ w ∧ durationDays s e * 30 ≤ w)) := by
  constructor
  · rintro (h | h) <;>
      · rcases task with ⟨sd, ed⟩
        simp only at h
        subst h
        simp [getTaskPosition]
  · intro s e hs he
    rcases task with ⟨sd, ed⟩
    simp only at hs he
    subst hs
    subst he
    constructor
    · intro hnone
      simp only [getTaskPosition]
      rw [findIdx?_eq_none_of_all hnone]
    · intro hex
      rcases findIdx?_isSome_of_exists hex with ⟨i, hi⟩
      refine ⟨(i : Int) * 30, max (durationDays s e * 30) 25, ?_, rfl,
        le_max_right _ _, le_max_left _ _⟩
      simp only [getTaskPosition]
      rw [hi]

/-- C10 witness: a two-day range and a task spanning days one and two;
the width facts instantiate at the concrete position. -/
theorem C10_witness :
    ∃ l w,
      getTaskPosition [0, 86400000]
        (GanttTask.mk (some 86400000) (some 259200000)) = some (l, w) ∧
      w = max (durationDays 86400000 259200000 * 30) 25 ∧
      25 ≤ w ∧ durationDays 86400000 259200000 * 30 ≤ w :=
  ((C10_getTaskPosition_total [0, 86400000]
      (GanttTask.mk (some 86400000) (some 259200000))).2
    86400000 259200000 rfl rfl).2 ⟨86400000, by decide, by decide⟩

theorem find?_employeesWithWorkload {employees : List Nat}
    (allMembers : List ProjectMember) {reqId : Nat}
    (hmem : reqId ∈ employees) :
    (employeesWithWorkload employees allMembers).find? (fun e => e.1 = reqId)
      = some (reqId, totalAllocation allMembers reqId,
          remainingCapacity allMembers reqId) := by
  induction employees with
  | nil => cases hmem
  | cons hd tl ih =>
    by_cases hhd : hd = reqId
    · subst hhd
      simp [employeesWithWorkload, List.find?]
    · rcases List.mem_cons.mp hmem with rfl | htl
      · exact absurd rfl hhd
      · simpa [employeesWithWorkload, List.find?, hhd] using ih htl

theorem totalAllocation_append_self (allMembers : List ProjectMember)
    (reqId : Nat) (ratio : ℚ) :
    totalAllocation (allMembers ++ [⟨reqId, some ratio⟩]) reqId
      = totalAllocation allMembers reqId + ratio := by
  simp [totalAllocation, List.filter_append]

/-- C8: when the requested employee is among the loaded employees, a
requested allocation ratio above the employee's remaining capacity
makes `handleAddMember` return before the API call; and an accepted
request never pushes an employee whose total allocation was at most
1.0 above 1.0. -/
theorem C8_add_member_capacity_guard (employees : List Nat)
    (allMembers : List ProjectMember) (reqId : Nat) (ratio : ℚ)
    (hmem : reqId ∈ employees) :
    (remainingCapacity allMembers reqId < ratio →
      handleAddMemberProceeds employees allMembers reqId ratio = false) ∧
    (handleAddMemberProceeds employees allMembers reqId ratio = true →
      totalAllocation allMembers reqId ≤ 1 →
      totalAllocation (allMembers ++ [⟨reqId, some ratio⟩]) reqId ≤ 1) := by
  have hfind := find?_employeesWithWorkload allMembers hmem
  constructor
  · intro hover
    simp [handleAddMemberProceeds, hfind, hover]
  · intro hacc htot
    rw [totalAllocation_append_self]
    simp only [handleAddMemberProceeds, hfind, Bool.not_eq_true'] at hacc
    rw [decide_eq_false_iff_not, not_lt] at hacc
    have hcap : remainingCapacity allMembers reqId
        = 1 - totalAllocation allMembers reqId := by
      rw [remainingCapacity, max_eq_right (by linarith)]
    rw [hcap] at hacc
    linarith

/-- C8 witness: with employee 7 loaded, no memberships anywhere (so
remaining capacity 1), a request for allocation 2 is rejected before
any API call. -/
theorem C8_witness :
    handleAddMemberProceeds [7] [] 7 2 = false :=
  (C8_add_member_capacity_guard [7] [] 7 2 (by decide)).1
    (by norm_num [remainingCapacity, totalAllocation])

theorem takeWhile_append_rbracket {c : List Char} (l : List Char)
    (hc : ']' ∉ c) :
    (c ++ ']' :: l).takeWhile (fun ch => ch ≠ ']') = c := by
  induction c with
  | nil => simp [List.takeWhile]
  | cons hd tl ih =>
    simp only [List.mem_cons, not_or] at hc
    have hne : hd ≠ ']' := fun h => hc.1 h.symm
    simp only [List.cons_append, List.takeWhile_cons, decide_eq_true_eq]
    rw [if_pos hne, ih hc.2]

/-- C7 counterexample: the claim quantifies over every non-empty
category string, but a category containing a closing bracket does not
survive the round trip — storing category `]` yields `[]] ` whose
bracket capture fails, so the extractor returns null instead of the
category. -/
theorem C7_counterexample :
    ¬ (getTaskCategory (some (composeDescription [']'] [])) = some [']'] ∧
       getDescriptionWithoutCategory (composeDescription [']'] []) = []) := by
  decide

/-- C7 amended: the round trip holds for every non-empty category that
contains no closing bracket and every description that neither starts
with a whitespace character (the regex eats a maximal whitespace run
after the bracket) nor contains a line terminator (the regex dot does
not cross one). -/
theorem C7_amended_roundtrip (c d : List Char) (hc : c ≠ []) (hcb : ']' ∉ c)
    (hd : ∀ ch, d.head? = some ch → isJsWhitespace ch = false)
    (hdl : ∀ ch ∈ d, isLineTerminator ch = false) :
    getTaskCategory (some (composeDescription c d)) = some c ∧
    getDescriptionWithoutCategory (composeDescription c d) = d := by
  have hcompose : composeDescription c d = '[' :: (c ++ ']' :: ' ' :: d) := by
    simp [composeDescription, hc]
  have hguard : categoryGuard ('[' :: (c ++ ']' :: ' ' :: d)) = true := by
    show (c ++ ']' :: ' ' :: d).contains ']' = true
    exact List.elem_iff.mpr (by simp)
  have htake : (c ++ ']' :: ' ' :: d).takeWhile (fun ch => ch ≠ ']') = c :=
    takeWhile_append_rbracket _ hcb
  have hdrop : (c ++ ']' :: ' ' :: d).drop c.length = ']' :: ' ' :: d :=
    List.drop_left c _
  have hdropWs : d.dropWhile isJsWhitespace = d := by
    cases d with
    | nil => rfl
    | cons ch t => simp [List.dropWhile, hd ch rfl]
  have htakeLine : d.takeWhile (fun ch => ¬ isLineTerminator ch) = d := by
    rw [List.takeWhile_eq_self_iff]
    intro x hx
    simp [hdl x hx]
  constructor
  · rw [hcompose]
    show (if categoryGuard ('[' :: (c ++ ']' :: ' ' :: d)) = true then
        bracketCapture ('[' :: (c ++ ']' :: ' ' :: d)) else none) = some c
    rw [if_pos hguard]
    show (let cc := (c ++ ']' :: ' ' :: d).takeWhile (fun ch => ch ≠ ']');
      if cc.isEmpty then none
      else match ((c ++ ']' :: ' ' :: d).drop cc.length).head? with
        | some ']' => some cc
        | _ => none) = some c
    simp only [htake, hdrop]
    rw [if_neg (by simp [List.isEmpty_iff, hc])]
    simp
  · rw [hcompose]
    show (if categoryGuard ('[' :: (c ++ ']' :: ' ' :: d)) = true then
        match categorySplit ('[' :: (c ++ ']' :: ' ' :: d)) with
        | some (_, dd) => dd
        | none => '[' :: (c ++ ']' :: ' ' :: d)
      else '[' :: (c ++ ']' :: ' ' :: d)) = d
    rw [if_pos hguard]
    have hsplit : categorySplit ('[' :: (c ++ ']' :: ' ' :: d)) = some (c, d) := by
      show (let cc := (c ++ ']' :: ' ' :: d).takeWhile (fun ch => ch ≠ ']');
        if cc.isEmpty then none
        else match ((c ++ ']' :: ' ' :: d).drop cc.length).head? with
          | some ']' =>
            let after := ((c ++ ']' :: ' ' :: d).drop cc.length).drop 1
            let afterWs := after.dropWhile isJsWhitespace
            some (cc, afterWs.takeWhile (fun ch => ¬ isLineTerminator ch))
          | _ => none) = some (c, d)
      simp only [htake, hdrop]
      rw [if_neg (by simp [List.isEmpty_iff, hc])]
      show some (c, ((' ' :: d).dropWhile isJsWhitespace).takeWhile
          (fun ch => ¬ isLineTerminator ch)) = some (c, d)
      rw [List.dropWhile_cons_of_pos (by decide), hdropWs, htakeLine]
    rw [hsplit]

/-- C7 amended witness: category `a` and description `b` survive the
round trip. -/
theorem C7_witness :
    getTaskCategory (some (composeDescription ['a'] ['b'])) = some ['a'] ∧
    getDescriptionWithoutCategory (composeDescription ['a'] ['b']) = ['b'] :=
  C7_amended_roundtrip ['a'] ['b'] (by decide) (by decide)
    (by intro ch h; cases h; decide) (by intro ch h; simp at h; subst h; decide)

theorem lookupSched_append_of_some {l1 : List ScheduleEntry}
    (l2 : List ScheduleEntry) {k : Nat} {v : Int × Int}
    (h : lookupSched l1 k = some v) :
    lookupSched (l1 ++ l2) k = some v := by
  induction l1 with
  | nil => cases h
  | cons hd tl ih =>
    rcases hd with ⟨i, sv, ev⟩
    by_cases hik : i = k
    · simpa [lookupSched, hik] using h
    · rw [List.cons_append]
      simp only [lookupSched, if_neg hik] at h ⊢
      exact ih h

theorem lookupSched_append_of_not_mem {l1 : List ScheduleEntry}
    (l2 : List ScheduleEntry) {k : Nat} (h : k ∉ l1.map Prod.fst) :
    lookupSched (l1 ++ l2) k = lookupSched l2 k := by
  induction l1 with
  | nil => rfl
  | cons hd tl ih =>
    rcases hd with ⟨i, sv, ev⟩
    simp only [List.map_cons, List.mem_cons, not_or] at h
    have hik : i ≠ k := fun he => h.1 he.symm
    rw [List.cons_append]
    simp only [lookupSched, if_neg hik]
    exact ih h.2

theorem scheduleTasks_append (epoch : Int) (deps : List SDep)
    (xs ys : List STask) (acc : List ScheduleEntry) :
    scheduleTasks epoch deps (xs ++ ys) acc
      = scheduleTasks epoch deps ys (scheduleTasks epoch deps xs acc) := by
  induction xs generalizing acc with
  | nil => rfl
  | cons t ts ih =>
    rw [List.cons_append]
    simp only [scheduleTasks]
    exact ih _

theorem scheduleTasks_extends (epoch : Int) (deps : List SDep)
    (ts : List STask) (acc : List ScheduleEntry) :
    ∃ l, scheduleTasks epoch deps ts acc = acc ++ l ∧
      l.map Prod.fst = ts.map STask.id := by
  induction ts generalizing acc with
  | nil => exact ⟨[], by simp [scheduleTasks]⟩
  | cons t ts ih =>
    rcases ih (scheduleStep epoch deps acc t) with ⟨l, hl, hk⟩
    refine ⟨(t.id, taskStart epoch deps acc t,
        advance (taskStart epoch deps acc t) t.wdays) :: l, ?_, ?_⟩
    · simp only [scheduleTasks]
      rw [hl]
      simp [scheduleStep]
    · simp [hk]

theorem init_le_foldl_max (l : List Int) (b : Int) : b ≤ l.foldl max b := by
  induction l generalizing b with
  | nil => exact le_refl b
  | cons x xs ih => exact le_trans (le_max_left b x) (ih (max b x))

theorem mem_le_foldl_max {l : List Int} {x : Int} (hx : x ∈ l) (b : Int) :
    x ≤ l.foldl max b := by
  induction l generalizing b with
  | nil => cases hx
  | cons y ys ih =>
    rcases List.mem_cons.mp hx with rfl | h
    · exact le_trans (le_max_right b x) (init_le_foldl_max ys (max b x))
    · exact ih h (max b y)

theorem lt_nextWorkingDay (d : Int) : d < nextWorkingDay d := by
  unfold nextWorkingDay skipToWorkingDay
  split_ifs <;> omega

/-- C6 (spec-modelled engine): in a schedule computed by the forward
pass over a topologically ordered task list with distinct task ids, for
every FS dependency edge both endpoints receive computed dates and the
successor's start is no earlier than the first working day after the
predecessor's end — in particular strictly later than the
predecessor's end.  The topological placement of the edge is expressed
by the list decomposition: the predecessor task appears strictly
before the successor task in the processed order. -/
theorem C6_fs_successor_starts_after_predecessor_end
    (epoch : Int) (deps : List SDep) (l1 l2 l3 : List STask) (p s : STask)
    (hids : ((l1 ++ p :: l2 ++ s :: l3).map STask.id).Nodup)
    (d : SDep) (hd : d ∈ deps) (hk : d.kind = DepType.FS)
    (hp : d.pred = p.id) (hs : d.succ = s.id) :
    ∃ ps pe ss se,
      lookupSched (runSchedule epoch deps (l1 ++ p :: l2 ++ s :: l3)) p.id
        = some (ps, pe) ∧
      lookupSched (runSchedule epoch deps (l1 ++ p :: l2 ++ s :: l3)) s.id
        = some (ss, se) ∧
      nextWorkingDay pe ≤ ss ∧ pe < ss := by
  simp only [List.map_append, List.map_cons, List.nodup_append,
    List.nodup_cons, List.mem_append, List.mem_cons, not_or,
    List.Disjoint] at hids
  have hpl1 : p.id ∉ l1.map STask.id := fun hmem =>
    hids.1.2.2 hmem (Or.inl rfl)
  have hsl1 : s.id ∉ l1.map STask.id := fun hmem =>
    hids.2.2 (Or.inl hmem) (Or.inl rfl)
  have hsp : s.id ≠ p.id := fun heq =>
    hids.2.2 (Or.inr (Or.inl rfl)) (Or.inl heq.symm)
  have hsl2 : s.id ∉ l2.map STask.id := fun hmem =>
    hids.2.2 (Or.inr (Or.inr hmem)) (Or.inl rfl)
  obtain ⟨la, hA, hAk⟩ := scheduleTasks_extends epoch deps l1 []
  rw [List.nil_append] at hA
  set A := scheduleTasks epoch deps l1 [] with hAdef
  set ps := taskStart epoch deps A p with hpsdef
  set pe := advance ps p.wdays with hpedef
  have hstep1 : scheduleStep epoch deps A p = A ++ [(p.id, ps, pe)] := by
    simp [scheduleStep]
  obtain ⟨lc, hB, hBk⟩ :=
    scheduleTasks_extends epoch deps l2 (A ++ [(p.id, ps, pe)])
  set B := scheduleTasks epoch deps l2 (A ++ [(p.id, ps, pe)]) with hBdef
  set ss := taskStart epoch deps B s with hssdef
  set se := advance ss s.wdays with hsedef
  have hstep2 : scheduleStep epoch deps B s = B ++ [(s.id, ss, se)] := by
    simp [scheduleStep]
  obtain ⟨ld, hF, hFk⟩ :=
    scheduleTasks_extends epoch deps l3 (B ++ [(s.id, ss, se)])
  have hsplit1 : runSchedule epoch deps (l1 ++ p :: l2 ++ s :: l3)
      = scheduleTasks epoch deps (s :: l3)
          (scheduleTasks epoch deps (p :: l2) A) := by
    rw [runSchedule,
      scheduleTasks_append epoch deps (l1 ++ p :: l2) (s :: l3) [],
      scheduleTasks_append epoch deps l1 (p :: l2) []]
  have hsplit2 : scheduleTasks epoch deps (p :: l2) A = B := by
    show scheduleTasks epoch deps l2 (scheduleStep epoch deps A p) = B
    rw [hstep1]
  have hsplit3 : scheduleTasks epoch deps (s :: l3) B
      = (B ++ [(s.id, ss, se)]) ++ ld := by
    show scheduleTasks epoch deps l3 (scheduleStep epoch deps B s) = _
    rw [hstep2, hF]
  have hrun : runSchedule epoch deps (l1 ++ p :: l2 ++ s :: l3)
      = (((A ++ [(p.id, ps, pe)]) ++ lc) ++ [(s.id, ss, se)]) ++ ld := by
    rw [hsplit1, hsplit2, hsplit3, hB]
  have hlookupAP : lookupSched (A ++ [(p.id, ps, pe)]) p.id = some (ps, pe) := by
    rw [lookupSched_append_of_not_mem _ (by rw [hA, hAk]; exact hpl1)]
    simp [lookupSched]
  have hlookupP :
      lookupSched (runSchedule epoch deps (l1 ++ p :: l2 ++ s :: l3)) p.id
        = some (ps, pe) := by
    rw [hrun, List.append_assoc (A ++ [(p.id, ps, pe)]),
      List.append_assoc (A ++ [(p.id, ps, pe)])]
    exact lookupSched_append_of_some _ hlookupAP
  have hlookupS :
      lookupSched (runSchedule epoch deps (l1 ++ p :: l2 ++ s :: l3)) s.id
        = some (ss, se) := by
    rw [hrun, List.append_assoc ((A ++ [(p.id, ps, pe)]) ++ lc)]
    rw [lookupSched_append_of_not_mem]
    · simp [lookupSched]
    · have hkeys : List.map Prod.fst ((A ++ [(p.id, ps, pe)]) ++ lc)
          = (l1.map STask.id ++ [p.id]) ++ l2.map STask.id := by
        rw [hA]
        simp [hAk, hBk]
      rw [hkeys]
      simp only [List.mem_append, List.mem_singleton, not_or]
      exact ⟨⟨hsl1, hsp⟩, hsl2⟩
  have hlookupBP : lookupSched B p.id = some (ps, pe) := by
    rw [hB]
    exact lookupSched_append_of_some _ hlookupAP
  have hbound : nextWorkingDay pe ≤ ss := by
    rw [hssdef]
    show nextWorkingDay pe ≤
      ((deps.filter (fun dd => dd.succ = s.id)).filterMap fun dd =>
        (lookupSched B dd.pred).map fun pev =>
          depBound dd.kind pev.1 pev.2 s.wdays).foldl max
        (max epoch (s.earliestStart.getD epoch))
    apply mem_le_foldl_max
    apply List.mem_filterMap.mpr
    refine ⟨d, List.mem_filter.mpr ⟨hd, by simp [hs]⟩, ?_⟩
    rw [hp, hlookupBP, Option.map_some']
    rw [hk]
    rfl
  exact ⟨ps, pe, ss, se, hlookupP, hlookupS, hbound,
    lt_of_lt_of_le (lt_nextWorkingDay pe) hbound⟩

/-- C6 witness: the spec's Scenario A pair — task 1 (effort 5, ratio
1.0) and task 2 (effort 8, ratio 0.8) connected by an FS edge,
processed in that order from epoch day 0 — instantiates the FS
invariant. -/
theorem C6_witness :
    ∃ ps pe ss se,
      lookupSched (runSchedule 0 [⟨1, 2, DepType.FS⟩]
        ([] ++ ⟨1, 5, none, some 1, false⟩ :: [] ++
          ⟨2, 8, none, some (4/5), false⟩ :: [])) 1 = some (ps, pe) ∧
      lookupSched (runSchedule 0 [⟨1, 2, DepType.FS⟩]
        ([] ++ ⟨1, 5, none, some 1, false⟩ :: [] ++
          ⟨2, 8, none, some (4/5), false⟩ :: [])) 2 = some (ss, se) ∧
      nextWorkingDay pe ≤ ss ∧ pe < ss :=
  C6_fs_successor_starts_after_predecessor_end 0 [⟨1, 2, DepType.FS⟩]
    [] [] [] ⟨1, 5, none, some 1, false⟩ ⟨2, 8, none, some (4/5), false⟩
    (by decide) ⟨1, 2, DepType.FS⟩ (by simp) rfl rfl rfl

end PM
